import Mathlib

/-!
Shallow embedding of `scripts/split-conversations.py`.

The script loads a JSON document, normalizes its top-level shape into a list
of conversation records, resolves a best-effort timestamp per record, assigns
each record to one of four age buckets relative to `now`, minimizes each
record to a role/content message list plus raw timestamp and truncated title,
and writes one file per non-empty bucket.

The embedding models JSON values as an inductive type, Python's dynamic
operations (`in`, subscripting, `dict.get`, iteration, truthiness, `str()`)
as total Lean functions into `Except PyErr _` (an `.error` marks exactly the
points where CPython would raise an uncaught exception), and datetimes as
rational numbers of seconds since the Unix epoch, UTC.
-/

namespace Hippo

/-- JSON-like values as produced by `json.load`. Numbers are modelled as
rationals (the Python int/float distinction is not tracked; truthiness and
ordering agree). Objects keep key insertion order, as Python dicts do. -/
inductive JVal where
  | null : JVal
  | bool : Bool → JVal
  | num : ℚ → JVal
  | str : String → JVal
  | arr : List JVal → JVal
  | obj : List (String × JVal) → JVal

/-- The uncaught CPython exceptions the script can raise per record. -/
inductive PyErr where
  | typeError : PyErr
  | keyError : PyErr
  | attributeError : PyErr
  | valueError : PyErr
deriving DecidableEq, Repr

/-- Python truthiness (`bool(v)`): `None`, `False`, `0`, `""`, `[]`, `{}`
are falsy, everything else truthy. -/
def truthy : JVal → Bool
  | .null => false
  | .bool b => b
  | .num q => q != 0
  | .str s => s != ""
  | .arr xs => !xs.isEmpty
  | .obj fs => !fs.isEmpty

/-- Value of the first binding of key `k` in an object's field list. -/
def lookupKey (fs : List (String × JVal)) (k : String) : Option JVal :=
  (fs.find? (fun kv => kv.1 == k)).map (fun kv => kv.2)

/-- `k` occurs as a key of the field list. -/
def hasKey (fs : List (String × JVal)) (k : String) : Bool :=
  fs.any (fun kv => kv.1 == k)

/-- Python `==` between a value and a string: only equal strings compare
equal (no cross-type equality involving strings). -/
def eqStr (v : JVal) (k : String) : Bool :=
  match v with
  | .str s => s == k
  | _ => false

/-- Python `k in v` for a string key `k`: key test on dicts, substring test
on strings, element equality on lists; `TypeError` on non-containers. -/
def pyContains (v : JVal) (k : String) : Except PyErr Bool :=
  match v with
  | .obj fs => .ok (hasKey fs k)
  | .str s => .ok (decide (k.data <:+: s.data))
  | .arr xs => .ok (xs.any (fun x => eqStr x k))
  | _ => .error .typeError

/-- Python `v[k]` for a string key `k`: dict lookup (`KeyError` if absent),
`TypeError` on anything else (string and list indices must be integers). -/
def pySubscript (v : JVal) (k : String) : Except PyErr JVal :=
  match v with
  | .obj fs =>
    match lookupKey fs k with
    | some w => .ok w
    | none => .error .keyError
  | _ => .error .typeError

/-- Python `v.get(k, d)` (and `v.get(k)` with `d = .null`): only dicts have
`.get`; anything else raises `AttributeError`. -/
def pyGetD (v : JVal) (k : String) (d : JVal) : Except PyErr JVal :=
  match v with
  | .obj fs => .ok ((lookupKey fs k).getD d)
  | _ => .error .attributeError

/-- Python iteration `for x in v`: list elements, dict keys (insertion
order), string characters; `TypeError` on non-iterables. -/
def pyIter : JVal → Except PyErr (List JVal)
  | .arr xs => .ok xs
  | .obj fs => .ok (fs.map (fun kv => .str kv.1))
  | .str s => .ok (s.data.map (fun c => .str (String.mk [c])))
  | _ => .error .typeError

/-- A single apostrophe, as used by Python `repr` around strings. -/
def sq : String := String.mk [Char.ofNat 39]

/-- Decimal rendering of a non-integral rational `q` (assuming `q.den`
divides a power of ten, as any value of a binary float does). -/
def numFracRepr (q : ℚ) : String :=
  match (List.range 40).find? (fun k => 10 ^ k % q.den == 0) with
  | some k =>
    let n := q.num.natAbs * (10 ^ k / q.den)
    let ip := n / 10 ^ k
    let fp := n % 10 ^ k
    let fd := toString fp
    let pad := String.mk (List.replicate (k - fd.length) '0')
    (if q < 0 then "-" else "") ++ toString ip ++ "." ++ pad ++ fd
  | none => toString q

/-- Python `str()` of a number. The model does not track Python's int/float
distinction: integral rationals render as ints, others as decimals. -/
def numRepr (q : ℚ) : String :=
  if q.den == 1 then toString q.num else numFracRepr q

mutual

/-- Python `str(v)`. -/
def pyStr : JVal → String
  | .null => "None"
  | .bool true => "True"
  | .bool false => "False"
  | .num q => numRepr q
  | .str s => s
  | .arr xs => "[" ++ String.intercalate ", " (pyReprList xs) ++ "]"
  | .obj fs => "\x7b" ++ String.intercalate ", " (pyReprObjList fs) ++ "\x7d"

/-- Python `repr(v)`, as used by `str()` on container elements (string
escaping inside `repr` is not modelled; strings are just quoted). -/
def pyRepr : JVal → String
  | .null => "None"
  | .bool true => "True"
  | .bool false => "False"
  | .num q => numRepr q
  | .str s => sq ++ s ++ sq
  | .arr xs => "[" ++ String.intercalate ", " (pyReprList xs) ++ "]"
  | .obj fs => "\x7b" ++ String.intercalate ", " (pyReprObjList fs) ++ "\x7d"

def pyReprList : List JVal → List String
  | [] => []
  | x :: xs => pyRepr x :: pyReprList xs

def pyReprObjList : List (String × JVal) → List String
  | [] => []
  | kv :: fs => (sq ++ kv.1 ++ sq ++ ": " ++ pyRepr kv.2) :: pyReprObjList fs

end

/-- Python slice `s[:n]`: the first `n` characters (code points). -/
def pyTruncate (n : Nat) (s : String) : String := String.mk (s.data.take n)

/-- Python `s.strip()`: drop leading and trailing whitespace. -/
def pyStrip (s : String) : String :=
  String.mk (((s.data.dropWhile Char.isWhitespace).reverse.dropWhile
    Char.isWhitespace).reverse)

/-- Python `s.replace(c, rep)` for a single-character pattern: replace
every occurrence. -/
def pyReplaceCh (s : String) (c : Char) (rep : String) : String :=
  String.mk ((s.data.map (fun ch => if ch == c then rep.data else [ch])).flatten)

/-! ### Datetime model

A resolved datetime is a rational number of seconds since the Unix epoch,
UTC. `datetime`'s representable range is `0001-01-01` to `9999-12-31`
(UTC); `fromtimestamp` raises outside it. -/

def isLeap (y : Nat) : Bool := y % 4 == 0 && (y % 100 != 0 || y % 400 == 0)

def daysInMonth (y m : Nat) : Nat :=
  if m == 2 then (if isLeap y then 29 else 28)
  else if m == 4 || m == 6 || m == 9 || m == 11 then 30 else 31

def validYMD (y m d : Nat) : Bool :=
  1 ≤ y && y ≤ 9999 && 1 ≤ m && m ≤ 12 && 1 ≤ d && d ≤ daysInMonth y m

/-- Days from 1970-01-01 to year `y`, month `m`, day `d` (proleptic
Gregorian; valid for `1 ≤ y`). -/
def daysFromCivil (y m d : Nat) : Int :=
  let y2 := if m ≤ 2 then y - 1 else y
  let era := y2 / 400
  let yoe := y2 % 400
  let mp := (m + 9) % 12
  let doy := (153 * mp + 2) / 5 + (d - 1)
  let doe := yoe * 365 + yoe / 4 - yoe / 100 + doy
  (era * 146097 + doe : Int) - 719468

/-- Read exactly `n` decimal digits. -/
def readDigits : Nat → Nat → List Char → Option (Nat × List Char)
  | 0, acc, cs => some (acc, cs)
  | n + 1, acc, c :: cs =>
    if c.isDigit then readDigits n (acc * 10 + (c.toNat - 48)) cs else none
  | _ + 1, _, [] => none

/-- Read one or two decimal digits (as `strptime`'s `%m`, `%d`, … do). -/
def read12 : List Char → Option (Nat × List Char)
  | c1 :: c2 :: cs =>
    if c1.isDigit then
      if c2.isDigit then some ((c1.toNat - 48) * 10 + (c2.toNat - 48), cs)
      else some (c1.toNat - 48, c2 :: cs)
    else none
  | [c1] => if c1.isDigit then some (c1.toNat - 48, []) else none
  | [] => none

def expectCh (c : Char) : List Char → Option (List Char)
  | c2 :: cs => if c2 == c then some cs else none
  | [] => none

/-- `YYYY-MM-DD` prefix of an ISO-8601 string. -/
def parseISODate (cs : List Char) : Option (Nat × Nat × Nat × List Char) := do
  let (y, cs) ← readDigits 4 0 cs
  let cs ← expectCh '-' cs
  let (m, cs) ← readDigits 2 0 cs
  let cs ← expectCh '-' cs
  let (d, cs) ← readDigits 2 0 cs
  if validYMD y m d then pure (y, m, d, cs) else none

/-- Fractional-second part: exactly three or six digits. -/
def parseFrac (cs : List Char) : Option (ℚ × List Char) :=
  match readDigits 6 0 cs with
  | some (f, rest) => some ((f : ℚ) / 10 ^ 6, rest)
  | none =>
    match readDigits 3 0 cs with
    | some (f, rest) => some ((f : ℚ) / 10 ^ 3, rest)
    | none => none

/-- ISO time-of-day `HH[:MM[:SS[.fff[fff]]]]`, in seconds. -/
def parseISOTime (cs : List Char) : Option (ℚ × List Char) := do
  let (h, cs) ← readDigits 2 0 cs
  if h ≤ 23 then
    match expectCh ':' cs with
    | none => pure ((h * 3600 : ℚ), cs)
    | some cs => do
      let (mi, cs) ← readDigits 2 0 cs
      if mi ≤ 59 then
        match expectCh ':' cs with
        | none => pure ((h * 3600 + mi * 60 : ℚ), cs)
        | some cs => do
          let (s, cs) ← readDigits 2 0 cs
          if s ≤ 59 then
            match expectCh '.' cs with
            | none => pure ((h * 3600 + mi * 60 + s : ℚ), cs)
            | some cs => do
              let (f, cs) ← parseFrac cs
              pure ((h * 3600 + mi * 60 + s : ℚ) + f, cs)
          else none
      else none
  else none

/-- UTC-offset tail `HH:MM`, in seconds. -/
def parseOffsetHM (cs : List Char) : Option (ℚ × List Char) := do
  let (h, cs) ← readDigits 2 0 cs
  let cs ← expectCh ':' cs
  let (mi, cs) ← readDigits 2 0 cs
  if h ≤ 23 && mi ≤ 59 then pure ((h * 3600 + mi * 60 : ℚ), cs) else none

/-- Models `datetime.fromisoformat` (the core pre-3.11 grammar:
`YYYY-MM-DD[<sep>HH[:MM[:SS[.fff[fff]]]][±HH:MM]]`, any single separator
character), returning UTC epoch seconds; a value without offset is naive
and later assumed UTC, so it denotes the same epoch number. -/
def fromisoformat (s : String) : Option ℚ := do
  let (y, m, d, rest) ← parseISODate s.data
  let base : ℚ := (daysFromCivil y m d : ℚ) * 86400
  match rest with
  | [] => pure base
  | _sep :: rest2 => do
    let (t, rest3) ← parseISOTime rest2
    match rest3 with
    | [] => pure (base + t)
    | c :: rest4 =>
      if c == '+' then do
        let (off, r) ← parseOffsetHM rest4
        if r.isEmpty then pure (base + t - off) else none
      else if c == '-' then do
        let (off, r) ← parseOffsetHM rest4
        if r.isEmpty then pure (base + t + off) else none
      else none

/-- Models `datetime.strptime(s, "%Y-%m-%d<sep>%H:%M:%S")` (naive,
assumed UTC). -/
def strptimeYMDHMS (sep : Char) (cs : List Char) : Option ℚ := do
  let (y, cs) ← readDigits 4 0 cs
  let cs ← expectCh '-' cs
  let (m, cs) ← read12 cs
  let cs ← expectCh '-' cs
  let (d, cs) ← read12 cs
  let cs ← expectCh sep cs
  let (h, cs) ← read12 cs
  let cs ← expectCh ':' cs
  let (mi, cs) ← read12 cs
  let cs ← expectCh ':' cs
  let (s, cs) ← read12 cs
  if cs.isEmpty && validYMD y m d && h ≤ 23 && mi ≤ 59 && s ≤ 61 then
    pure ((daysFromCivil y m d : ℚ) * 86400 + (h * 3600 + mi * 60 + s : ℚ))
  else none

/-- Models `datetime.strptime(s, "%Y-%m-%d")`. -/
def strptimeYMD (cs : List Char) : Option ℚ := do
  let (y, cs) ← readDigits 4 0 cs
  let cs ← expectCh '-' cs
  let (m, cs) ← read12 cs
  let cs ← expectCh '-' cs
  let (d, cs) ← read12 cs
  if cs.isEmpty && validYMD y m d then
    pure ((daysFromCivil y m d : ℚ) * 86400)
  else none

/-- String-timestamp parsing exactly as the script tries it: ISO first (on
the string with every `Z` replaced by `+00:00`), then the three fixed
`strptime` patterns on the original string; every failure is swallowed by
the surrounding `try`/`except`, so this never raises. -/
def parseDateString (s : String) : Option ℚ :=
  fromisoformat (pyReplaceCh s 'Z' "+00:00") <|>
    strptimeYMDHMS ' ' s.data <|> strptimeYMDHMS 'T' s.data <|> strptimeYMD s.data

/-! ### Timestamp resolution and bucketing
(`split_conversations_by_time`, lines 64–134) -/

/-- Field names tried at top level, in order (line 67). -/
def tsFields : List String :=
  ["create_time", "created_at", "timestamp", "created", "date", "updated_at", "update_time"]

/-- Field names tried inside `metadata`, in order (line 75). -/
def metaFields : List String :=
  ["create_time", "created_at", "timestamp", "created", "date"]

/-- The field-search loop: first *present* field wins (its value is taken
even when falsy); `none` when no field is present. Raises wherever the
`in`-test or subscript would. -/
def findField (v : JVal) : List String → Except PyErr (Option JVal)
  | [] => .ok none
  | f :: rest => do
    let c ← pyContains v f
    if c then do
      let w ← pySubscript v f
      pure (some w)
    else findField v rest

/-- Lines 66–78: the raw `timestamp` variable after both search loops.
The initial Python `None` and an absent field are both represented as
`.null` (they are equally falsy, and only truthiness is consulted next).
The `metadata` fallback runs only when the top-level result is falsy. -/
def resolveRawTimestamp (conv : JVal) : Except PyErr JVal := do
  let t0 ← findField conv tsFields
  let t := t0.getD .null
  if truthy t then pure t
  else do
    let hasMeta ← pyContains conv "metadata"
    if hasMeta then do
      let md ← pySubscript conv "metadata"
      let t2 ← findField md metaFields
      pure (t2.getD t)
    else pure t

/-- `datetime`'s representable range in UTC epoch seconds:
`0001-01-01T00:00:00` to `9999-12-31T23:59:59.999999`. -/
def minEpoch : ℚ := -62135596800

def maxEpoch : ℚ := 253402300800

/-- Models `datetime.fromtimestamp(q, tz=timezone.utc)`: the identity on
epoch seconds within `datetime`'s range, raising outside it (uncaught in
the script). -/
def pyFromtimestamp (q : ℚ) : Except PyErr ℚ :=
  if minEpoch ≤ q ∧ q < maxEpoch then .ok q else .error .valueError

/-- Lines 85–113: turn the (truthy) raw timestamp value into an optional
datetime (`conv_date`). Numbers (and bools, which `isinstance(·, int)`
accepts) above `1e12` are milliseconds, otherwise seconds; strings go
through the ISO/`strptime` attempts with all parse errors swallowed; any
other type leaves `conv_date = None`. -/
def parseTimestamp : JVal → Except PyErr (Option ℚ)
  | .num q => do
    let d ← pyFromtimestamp (if q > 10 ^ 12 then q / 1000 else q)
    pure (some d)
  | .bool b => do
    let d ← pyFromtimestamp (if b then 1 else 0)
    pure (some d)
  | .str s => .ok (parseDateString s)
  | _ => .ok none

/-- The four bucket labels. -/
inductive Bucket where
  | l3 : Bucket
  | m36 : Bucket
  | m612 : Bucket
  | older : Bucket
deriving DecidableEq, Repr

/-- Lines 127–134: the ordered `if`/`elif` chain over the boundaries
`now − 90d`, `now − 180d`, `now − 365d` (a day is exactly 86400 s). -/
def bucketFromDate (now d : ℚ) : Bucket :=
  if d ≥ now - 90 * 86400 then .l3
  else if d ≥ now - 180 * 86400 then .m36
  else if d ≥ now - 365 * 86400 then .m612
  else .older

/-- Lines 64–134, one iteration of the sorting loop: which bucket the
record is appended to (or the exception that aborts the run). The
timezone renormalization of lines 119–124 is the identity here because
resolved datetimes are already UTC epoch numbers. -/
def routeRecord (now : ℚ) (conv : JVal) : Except PyErr Bucket := do
  let t ← resolveRawTimestamp conv
  if truthy t then do
    let d? ← parseTimestamp t
    match d? with
    | some d => pure (bucketFromDate now d)
    | none => pure .older
  else pure .older

/-- The four bucket lists (line 56), in insertion order. -/
structure Buckets where
  l3 : List JVal
  m36 : List JVal
  m612 : List JVal
  older : List JVal

def Buckets.get (B : Buckets) : Bucket → List JVal
  | .l3 => B.l3
  | .m36 => B.m36
  | .m612 => B.m612
  | .older => B.older

def Buckets.add (B : Buckets) (b : Bucket) (c : JVal) : Buckets :=
  match b with
  | .l3 => { B with l3 := B.l3 ++ [c] }
  | .m36 => { B with m36 := B.m36 ++ [c] }
  | .m612 => { B with m612 := B.m612 ++ [c] }
  | .older => { B with older := B.older ++ [c] }

/-- The sorting loop over the record list, threading the buckets. -/
def assignAux (now : ℚ) (B : Buckets) : List JVal → Except PyErr Buckets
  | [] => .ok B
  | c :: rest => do
    let b ← routeRecord now c
    assignAux now (B.add b c) rest

/-- Lines 56–134: all four buckets after the sorting loop. -/
def assignBuckets (now : ℚ) (convs : List JVal) : Except PyErr Buckets :=
  assignAux now ⟨[], [], [], []⟩ convs

/-- `routeRecord` sends the record to bucket `b` (used as the filter
predicate in the bucket characterization). -/
def routesTo (now : ℚ) (b : Bucket) (c : JVal) : Bool :=
  match routeRecord now c with
  | .ok b2 => b2 == b
  | .error _ => false

/-! ### Minimization (`minimize_conv`, lines 137–184) -/

/-- A normalized message. The role is kept as the raw looked-up value
(the script does not coerce it to a string). -/
structure Msg where
  role : JVal
  content : String

/-- A minimized conversation (lines 180–184). -/
structure MinConv where
  messages : List Msg
  timestamp : JVal
  title : String

/-- Lines 146–157, the ChatGPT-format node loop: for each node with a
truthy `message` whose `content` is truthy, join the truthy `parts` with
single spaces; if the joined string is non-blank, emit
`message.author.role` (default `"unknown"`) with the content truncated
to 5000 characters. Raises where a non-dict meets `.get` or a non-iterable
is iterated. -/
def extractFromMappingNodes : List (String × JVal) → Except PyErr (List Msg)
  | [] => .ok []
  | nkv :: rest => do
    let message ← pyGetD nkv.2 "message" .null
    if truthy message then do
      let c ← pyGetD message "content" .null
      if truthy c then do
        let parts ← pyGetD c "parts" (.arr [])
        if truthy parts then do
          let ps ← pyIter parts
          let content := String.intercalate " " ((ps.filter truthy).map pyStr)
          if pyStrip content ≠ "" then do
            let author ← pyGetD message "author" (.obj [])
            let role ← pyGetD author "role" (.str "unknown")
            let ms ← extractFromMappingNodes rest
            pure (⟨role, pyTruncate 5000 content⟩ :: ms)
          else extractFromMappingNodes rest
        else extractFromMappingNodes rest
      else extractFromMappingNodes rest
    else extractFromMappingNodes rest

/-- Lines 162–169, the flat `messages` loop: content is
`msg.get('content') or msg.get('text') or ''`; when truthy, emit
`msg.get('role', msg.get('author', 'unknown'))` with `str(content)`
truncated to 5000 characters. -/
def extractFromMessagesList : List JVal → Except PyErr (List Msg)
  | [] => .ok []
  | msg :: rest => do
    let c1 ← pyGetD msg "content" .null
    let content ← if truthy c1 then pure c1
      else do
        let c2 ← pyGetD msg "text" .null
        pure (if truthy c2 then c2 else .str "")
    if truthy content then do
      let inner ← pyGetD msg "author" (.str "unknown")
      let role ← pyGetD msg "role" inner
      let ms ← extractFromMessagesList rest
      pure (⟨role, pyTruncate 5000 (pyStr content)⟩ :: ms)
    else extractFromMessagesList rest

/-- Lines 172–178, the `items` loop body over the already-materialized
element list: only dict elements containing `content` contribute. -/
def extractFromItems : List JVal → List Msg
  | [] => []
  | item :: rest =>
    match item with
    | .obj fs =>
      if hasKey fs "content" then
        ⟨(lookupKey fs "role").getD (.str "unknown"),
          pyTruncate 5000 (pyStr ((lookupKey fs "content").getD .null))⟩ ::
          extractFromItems rest
      else extractFromItems rest
    | _ => extractFromItems rest

/-- Lines 137–184, `minimize_conv`. Branch selection keys on field
*presence* (`'mapping' in conv` / `elif 'messages' in conv` /
`elif 'items' in conv`); a present `mapping` that is not a dict (or a
present `messages` that is not a list) leaves the message list empty
without trying later branches. The output timestamp is
`conv.get('create_time') or conv.get('created_at') or conv.get('timestamp')`
and the title is `str(conv.get('title', ''))[:100]`.
`extractMessages` is the strategy block (lines 141–178); `minimize_conv`
adds the timestamp/title tail (lines 180–184). -/
def extractMessages (conv : JVal) : Except PyErr (List Msg) := do
  let hasMapping ← pyContains conv "mapping"
  if hasMapping then do
    let m ← pySubscript conv "mapping"
    match m with
    | .obj nodes => extractFromMappingNodes nodes
    | _ => pure []
  else do
    let hasMsgs ← pyContains conv "messages"
    if hasMsgs then do
      let m ← pySubscript conv "messages"
      match m with
      | .arr xs => extractFromMessagesList xs
      | _ => pure []
    else do
      let hasItems ← pyContains conv "items"
      if hasItems then do
        let it ← pySubscript conv "items"
        let xs ← pyIter it
        pure (extractFromItems xs)
      else pure []

def minimize_conv (conv : JVal) : Except PyErr MinConv := do
  let messages ← extractMessages conv
  let t1 ← pyGetD conv "create_time" .null
  let t2 ← pyGetD conv "created_at" .null
  let t3 ← pyGetD conv "timestamp" .null
  let ti ← pyGetD conv "title" (.str "")
  pure { messages := messages,
         timestamp := if truthy t1 then t1 else if truthy t2 then t2 else t3,
         title := pyTruncate 100 (pyStr ti) }

/-- Line 194: `[minimize_conv(conv) for conv in conversations]`. -/
def minimizeList : List JVal → Except PyErr (List MinConv)
  | [] => .ok []
  | c :: rest => do
    let m ← minimize_conv c
    let ms ← minimizeList rest
    pure (m :: ms)

/-! ### Loader shape normalization (lines 31–45) -/

/-- Whether a value is a JSON array (`isinstance(v, list)`). -/
def isArr : JVal → Bool
  | .arr _ => true
  | _ => false

/-- Lines 31–45: pick the conversation sequence from the parsed document.
`none` models the `Unexpected data structure` abort (printed, no output
written). For a dict: `conversations`, else `items`, else the first
list-valued entry, else `[]`; a list is used directly. -/
def selectConversations (data : JVal) : Option JVal :=
  match data with
  | .obj fs =>
    if hasKey fs "conversations" then some ((lookupKey fs "conversations").getD .null)
    else if hasKey fs "items" then some ((lookupKey fs "items").getD .null)
    else
      match ((fs.map (fun kv => kv.2)).filter isArr).head? with
      | some v => some v
      | none => some (.arr [])
  | .arr xs => some (.arr xs)
  | _ => none

/-! ### Well-shaped records

A structural sufficient condition under which the per-record processing
(timestamp resolution, bucketing, minimization) hits none of the script's
uncaught-exception paths. -/

def isObjB : JVal → Bool
  | .obj _ => true
  | _ => false

/-- Values Python can iterate (`for x in v`). -/
def iterableB : JVal → Bool
  | .arr _ => true
  | .obj _ => true
  | .str _ => true
  | _ => false

/-- A value found at a timestamp field parses without raising: numbers
must land inside `datetime`'s range after the milliseconds heuristic
(everything non-numeric either parses with errors swallowed or is left
unparsed). -/
def tsValOk : JVal → Bool
  | .num q =>
    decide (minEpoch ≤ (if q > 10 ^ 12 then q / 1000 else q) ∧
      (if q > 10 ^ 12 then q / 1000 else q) < maxEpoch)
  | _ => true

/-- Every value sitting at one of the given field names is `tsValOk`. -/
def tsFieldValsOk (fs : List (String × JVal)) (names : List String) : Bool :=
  fs.all (fun kv => !(names.contains kv.1) || tsValOk kv.2)

/-- A usable `metadata` value: a dict whose timestamp-field values parse. -/
def metadataOk : JVal → Bool
  | .obj mfs => tsFieldValsOk mfs metaFields
  | _ => false

/-- A node of a ChatGPT-format `mapping` that the node loop can process
without raising. -/
def nodeOk (node : JVal) : Bool :=
  match node with
  | .obj nfs =>
    (match (lookupKey nfs "message").getD .null with
     | .null => true
     | .bool b => !b
     | .obj mfs =>
       (match (lookupKey mfs "author").getD (.obj []) with
        | .obj _ => true
        | _ => false) &&
       (match (lookupKey mfs "content").getD .null with
        | .null => true
        | .bool b => !b
        | .num q => q == 0
        | .str s => s == ""
        | .arr xs => xs.isEmpty
        | .obj cfs =>
          let parts := (lookupKey cfs "parts").getD (.arr [])
          !truthy parts || iterableB parts)
     | .num q => q == 0
     | .str s => s == ""
     | .arr xs => xs.isEmpty
  )
  | _ => false

/-- A usable `mapping` value: a non-dict is skipped harmlessly; a dict
needs every node to be processable. -/
def mappingValOk : JVal → Bool
  | .obj nodes => nodes.all (fun nkv => nodeOk nkv.2)
  | _ => true

/-- A usable `messages` value: a non-list is skipped harmlessly; a list
needs every element to be a dict (each gets `.get` called on it). -/
def messagesValOk : JVal → Bool
  | .arr xs => xs.all isObjB
  | _ => true

/-- A record none of whose processing steps raises: a dict whose
timestamp-field values parse cleanly, whose `metadata` (if present) is a
dict with the same property, and whose `mapping`/`messages`/`items`
values (if present) are well-shaped for their loops. -/
def wellShaped : JVal → Bool
  | .obj fs =>
    tsFieldValsOk fs tsFields &&
    fs.all (fun kv => kv.1 != "metadata" || metadataOk kv.2) &&
    fs.all (fun kv => kv.1 != "mapping" || mappingValOk kv.2) &&
    fs.all (fun kv => kv.1 != "messages" || messagesValOk kv.2) &&
    fs.all (fun kv => kv.1 != "items" || iterableB kv.2)
  | _ => false

/-! ### Helper lemmas -/

theorem lookupKey_of_hasKey {fs : List (String × JVal)} {k : String}
    (h : hasKey fs k = true) : ∃ v, lookupKey fs k = some v := by
  induction fs with
  | nil => simp [hasKey] at h
  | cons kv rest ih =>
    by_cases hk : kv.1 == k
    · exact ⟨kv.2, by simp [lookupKey, List.find?, hk]⟩
    · have h2 : hasKey rest k = true := by
        simp only [hasKey, List.any] at h ⊢
        rcases Bool.or_eq_true_iff.mp h with h1 | h1
        · exact absurd h1 hk
        · exact h1
      rcases ih h2 with ⟨v, hv⟩
      exact ⟨v, by simp [lookupKey, List.find?, hk] at hv ⊢; exact hv⟩

theorem hasKey_of_lookupKey {fs : List (String × JVal)} {k : String} {v : JVal}
    (h : lookupKey fs k = some v) : hasKey fs k = true := by
  induction fs with
  | nil => simp [lookupKey] at h
  | cons kv rest ih =>
    by_cases hk : kv.1 == k
    · simp [hasKey, hk]
    · simp only [lookupKey, List.find?, hk] at h
      have := ih (by simpa [lookupKey] using h)
      simp [hasKey, List.any] at this ⊢
      exact Or.inr this

theorem mem_of_lookupKey {fs : List (String × JVal)} {k : String} {v : JVal}
    (h : lookupKey fs k = some v) : (k, v) ∈ fs := by
  induction fs with
  | nil => simp [lookupKey] at h
  | cons kv rest ih =>
    by_cases hk : kv.1 == k
    · simp only [lookupKey, List.find?, hk] at h
      have hkeq : kv.1 = k := by simpa using hk
      have : kv = (k, v) := by
        cases kv with
        | mk a b => simp at h hkeq; simp [hkeq, h]
      simp [this]
    · simp only [lookupKey, List.find?, hk] at h
      exact List.mem_cons_of_mem _ (ih (by simpa [lookupKey] using h))

theorem head?_filter_eq_find? {α : Type} (p : α → Bool) (l : List α) :
    (l.filter p).head? = l.find? p := by
  induction l with
  | nil => rfl
  | cons a l ih =>
    by_cases h : p a
    · simp [List.filter, List.find?, h]
    · have hf : p a = false := Bool.not_eq_true _ ▸ eq_false_of_ne_true h
      simp [List.filter, List.find?, hf, ih]

theorem findField_obj_ok (fs : List (String × JVal)) :
    ∀ names, ∃ r, findField (.obj fs) names = .ok r := by
  intro names
  induction names with
  | nil => exact ⟨none, rfl⟩
  | cons f rest ih =>
    by_cases h : hasKey fs f = true
    · rcases lookupKey_of_hasKey h with ⟨v, hv⟩
      refine ⟨some v, ?_⟩
      simp [findField, pyContains, h, pySubscript, hv, Except.bind, bind, pure, Except.pure]
    · rcases ih with ⟨r, hr⟩
      refine ⟨r, ?_⟩
      have hf : hasKey fs f = false := eq_false_of_ne_true h
      simp [findField, pyContains, hf, hr, Except.bind, bind]

theorem findField_obj_some {fs : List (String × JVal)} :
    ∀ {names : List String} {v : JVal}, findField (.obj fs) names = .ok (some v) →
      ∃ k, k ∈ names ∧ lookupKey fs k = some v := by
  intro names
  induction names with
  | nil => intro v h; simp [findField] at h
  | cons f rest ih =>
    intro v h
    by_cases hk : hasKey fs f = true
    · rcases lookupKey_of_hasKey hk with ⟨w, hw⟩
      simp [findField, pyContains, hk, pySubscript, hw, Except.bind, bind, pure,
        Except.pure] at h
      exact ⟨f, List.mem_cons_self f rest, by rw [hw, h]⟩
    · have hf : hasKey fs f = false := eq_false_of_ne_true hk
      simp only [findField, pyContains, hf, Except.bind, bind] at h
      rcases ih (by simpa using h) with ⟨k, hk1, hk2⟩
      exact ⟨k, List.mem_cons_of_mem _ hk1, hk2⟩

/-- On a dict record whose `metadata` value (if any) is itself a usable
dict, timestamp resolution never raises, and the resolved raw value is
null, a top-level timestamp-field value, or a metadata timestamp-field
value. -/
theorem resolveRaw_obj_ok (fs : List (String × JVal))
    (hmeta : fs.all (fun kv => kv.1 != "metadata" || metadataOk kv.2) = true) :
    ∃ t, resolveRawTimestamp (.obj fs) = .ok t ∧
      (t = .null ∨ (∃ k, k ∈ tsFields ∧ lookupKey fs k = some t) ∨
        (∃ mfs, lookupKey fs "metadata" = some (.obj mfs) ∧
          ∃ k, k ∈ metaFields ∧ lookupKey mfs k = some t)) := by
  rcases findField_obj_ok fs tsFields with ⟨t0, h0⟩
  have hsrc0 : t0.getD .null = .null ∨
      (∃ k, k ∈ tsFields ∧ lookupKey fs k = some (t0.getD .null)) := by
    cases t0 with
    | none => exact Or.inl rfl
    | some v =>
      rcases findField_obj_some h0 with ⟨k, hk1, hk2⟩
      exact Or.inr ⟨k, hk1, hk2⟩
  by_cases htr : truthy (t0.getD .null) = true
  · refine ⟨t0.getD .null, ?_, ?_⟩
    · simp [resolveRawTimestamp, h0, htr, Except.bind, bind, pure, Except.pure]
    · rcases hsrc0 with h | h
      · exact Or.inl h
      · exact Or.inr (Or.inl h)
  · have htrf : truthy (t0.getD .null) = false := eq_false_of_ne_true htr
    by_cases hm : hasKey fs "metadata" = true
    · rcases lookupKey_of_hasKey hm with ⟨md, hmd⟩
      have hmdOk : metadataOk md = true := by
        have hmem := mem_of_lookupKey hmd
        have := List.all_eq_true.mp hmeta _ hmem
        simpa using this
      obtain ⟨mfs, rfl⟩ : ∃ mfs, md = .obj mfs := by
        cases md with
        | obj mfs => exact ⟨mfs, rfl⟩
        | null => simp [metadataOk] at hmdOk
        | bool b => simp [metadataOk] at hmdOk
        | num q => simp [metadataOk] at hmdOk
        | str s => simp [metadataOk] at hmdOk
        | arr xs => simp [metadataOk] at hmdOk
      rcases findField_obj_ok mfs metaFields with ⟨t2, h2⟩
      refine ⟨t2.getD (t0.getD .null), ?_, ?_⟩
      · simp [resolveRawTimestamp, h0, htrf, pyContains, hm, pySubscript, hmd, h2,
          Except.bind, bind, pure, Except.pure]
      · cases t2 with
        | none => simpa using hsrc0.imp id Or.inl
        | some v =>
          rcases findField_obj_some h2 with ⟨k, hk1, hk2⟩
          exact Or.inr (Or.inr ⟨mfs, hmd, k, hk1, by simpa using hk2⟩)
    · have hmf : hasKey fs "metadata" = false := eq_false_of_ne_true hm
      refine ⟨t0.getD .null, ?_, hsrc0.imp id Or.inl⟩
      simp [resolveRawTimestamp, h0, htrf, pyContains, hmf, Except.bind, bind, pure,
        Except.pure]

/-- A `tsValOk` value always parses (possibly to "unresolved") without
raising. -/
theorem parseTimestamp_ok_of_tsValOk {t : JVal} (h : tsValOk t = true) :
    ∃ r, parseTimestamp t = .ok r := by
  cases t with
  | num q =>
    simp only [tsValOk, decide_eq_true_eq] at h
    refine ⟨some (if q > 10 ^ 12 then q / 1000 else q), ?_⟩
    simp [parseTimestamp, pyFromtimestamp, h, Except.bind, bind, pure, Except.pure]
  | bool b =>
    refine ⟨some (if b then 1 else 0), ?_⟩
    have hok : pyFromtimestamp (if b then 1 else 0) = .ok (if b then 1 else 0) := by
      cases b <;> norm_num [pyFromtimestamp, minEpoch, maxEpoch]
    simp [parseTimestamp, hok, Except.bind, bind, pure, Except.pure]
  | str s => exact ⟨parseDateString s, rfl⟩
  | null => exact ⟨none, rfl⟩
  | arr xs => exact ⟨none, rfl⟩
  | obj fs => exact ⟨none, rfl⟩

theorem tsValOk_of_mem {fs : List (String × JVal)} {names : List String} {k : String}
    {v : JVal} (hall : tsFieldValsOk fs names = true) (hmem : (k, v) ∈ fs)
    (hk : k ∈ names) : tsValOk v = true := by
  have h := List.all_eq_true.mp hall _ hmem
  have hc : names.contains k = true := by
    simp only [List.contains]
    exact List.elem_iff.mpr hk
  rcases Bool.or_eq_true_iff.mp h with h1 | h1
  · rw [hc] at h1; simp at h1
  · exact h1

/-- On a well-shaped record the whole resolution+bucketing step
succeeds. -/
theorem routeRecord_obj_ok (now : ℚ) {fs : List (String × JVal)}
    (hts : tsFieldValsOk fs tsFields = true)
    (hmeta : fs.all (fun kv => kv.1 != "metadata" || metadataOk kv.2) = true) :
    (routeRecord now (.obj fs)).isOk = true := by
  rcases resolveRaw_obj_ok fs hmeta with ⟨t, hres, hsrc⟩
  have htsv : tsValOk t = true := by
    rcases hsrc with rfl | ⟨k, hk, hlk⟩ | ⟨mfs, hmd, k, hk, hlk⟩
    · rfl
    · exact tsValOk_of_mem hts (mem_of_lookupKey hlk) hk
    · have hmem := mem_of_lookupKey hmd
      have h2 := List.all_eq_true.mp hmeta _ hmem
      simp only [bne_self_eq_false, Bool.false_or, metadataOk] at h2
      exact tsValOk_of_mem h2 (mem_of_lookupKey hlk) hk
  by_cases htr : truthy t = true
  · rcases parseTimestamp_ok_of_tsValOk htsv with ⟨r, hp⟩
    cases r with
    | some d =>
      simp [routeRecord, hres, htr, hp, Except.bind, bind, pure, Except.pure, Except.isOk,
        Except.toBool]
    | none =>
      simp [routeRecord, hres, htr, hp, Except.bind, bind, pure, Except.pure, Except.isOk,
        Except.toBool]
  · simp [routeRecord, hres, eq_false_of_ne_true htr, Except.bind, bind, pure, Except.pure,
      Except.isOk, Except.toBool]

/-- One processable node neither raises nor blocks the rest of the node
loop. -/
theorem extractFromMappingNodes_cons_ok {node : JVal} (nid : String)
    (hnode : nodeOk node = true) {rest : List (String × JVal)} {ms : List Msg}
    (hrest : extractFromMappingNodes rest = .ok ms) :
    ∃ r, extractFromMappingNodes ((nid, node) :: rest) = .ok r := by
  obtain ⟨nfs, rfl⟩ : ∃ nfs, node = .obj nfs := by
    cases node with
    | obj nfs => exact ⟨nfs, rfl⟩
    | null => simp [nodeOk] at hnode
    | bool b => simp [nodeOk] at hnode
    | num q => simp [nodeOk] at hnode
    | str s => simp [nodeOk] at hnode
    | arr xs => simp [nodeOk] at hnode
  simp only [nodeOk] at hnode
  rcases hm : (lookupKey nfs "message").getD .null with _ | b | q | s | xs | mfs
  · exact ⟨ms, by simp [extractFromMappingNodes, pyGetD, hm, truthy, hrest,
      Except.bind, bind, pure, Except.pure]⟩
  · rw [hm] at hnode
    have hb : b = false := by simpa using hnode
    subst hb
    exact ⟨ms, by simp [extractFromMappingNodes, pyGetD, hm, truthy, hrest,
      Except.bind, bind, pure, Except.pure]⟩
  · rw [hm] at hnode
    have hq : q = 0 := by simpa using hnode
    exact ⟨ms, by simp [extractFromMappingNodes, pyGetD, hm, truthy, hq, hrest,
      Except.bind, bind, pure, Except.pure]⟩
  · rw [hm] at hnode
    have hs : s = "" := by simpa using hnode
    exact ⟨ms, by simp [extractFromMappingNodes, pyGetD, hm, truthy, hs, hrest,
      Except.bind, bind, pure, Except.pure]⟩
  · rw [hm] at hnode
    have hx : xs = [] := by simpa using hnode
    exact ⟨ms, by simp [extractFromMappingNodes, pyGetD, hm, truthy, hx, hrest,
      Except.bind, bind, pure, Except.pure]⟩
  · rw [hm] at hnode
    by_cases hemp : mfs.isEmpty = true
    · exact ⟨ms, by simp [extractFromMappingNodes, pyGetD, hm, truthy, hemp, hrest,
        Except.bind, bind, pure, Except.pure]⟩
    · have htr : truthy (JVal.obj mfs) = true := by
        have h0 : mfs.isEmpty = false := eq_false_of_ne_true hemp
        simp [truthy, h0]
      simp only [Bool.and_eq_true] at hnode
      obtain ⟨hauthor, hcontent⟩ := hnode
      obtain ⟨afs, ha⟩ : ∃ afs, (lookupKey mfs "author").getD (.obj []) = .obj afs := by
        rcases ham : (lookupKey mfs "author").getD (.obj []) with _ | b | q | s | ys | afs
        · rw [ham] at hauthor; simp at hauthor
        · rw [ham] at hauthor; simp at hauthor
        · rw [ham] at hauthor; simp at hauthor
        · rw [ham] at hauthor; simp at hauthor
        · rw [ham] at hauthor; simp at hauthor
        · exact ⟨afs, rfl⟩
      rcases hcm : (lookupKey mfs "content").getD .null with _ | b | q | s | ys | cfs
      · exact ⟨ms, by simp [extractFromMappingNodes, pyGetD, hm, htr, hcm, truthy, hrest,
          Except.bind, bind, pure, Except.pure]⟩
      · rw [hcm] at hcontent
        have hb : b = false := by simpa using hcontent
        subst hb
        exact ⟨ms, by simp [extractFromMappingNodes, pyGetD, hm, htr, hcm, truthy, hrest,
          Except.bind, bind, pure, Except.pure]⟩
      · rw [hcm] at hcontent
        have hq : q = 0 := by simpa using hcontent
        exact ⟨ms, by simp [extractFromMappingNodes, pyGetD, hm, htr, hcm, truthy, hq,
          hrest, Except.bind, bind, pure, Except.pure]⟩
      · rw [hcm] at hcontent
        have hs : s = "" := by simpa using hcontent
        exact ⟨ms, by simp [extractFromMappingNodes, pyGetD, hm, htr, hcm, truthy, hs,
          hrest, Except.bind, bind, pure, Except.pure]⟩
      · rw [hcm] at hcontent
        have hx : ys = [] := by simpa using hcontent
        exact ⟨ms, by simp [extractFromMappingNodes, pyGetD, hm, htr, hcm, truthy, hx,
          hrest, Except.bind, bind, pure, Except.pure]⟩
      · rw [hcm] at hcontent
        by_cases hcemp : cfs.isEmpty = true
        · have htcf : truthy (JVal.obj cfs) = false := by simp [truthy, hcemp]
          exact ⟨ms, by simp [extractFromMappingNodes, pyGetD, hm, htr, hcm, htcf, hrest,
            Except.bind, bind, pure, Except.pure]⟩
        · have htc : truthy (JVal.obj cfs) = true := by
            have h0 : cfs.isEmpty = false := eq_false_of_ne_true hcemp
            simp [truthy, h0]
          by_cases htp : truthy ((lookupKey cfs "parts").getD (.arr [])) = true
          · have hiter : iterableB ((lookupKey cfs "parts").getD (.arr [])) = true := by
              rcases Bool.or_eq_true_iff.mp hcontent with h1 | h1
              · rw [htp] at h1; simp at h1
              · exact h1
            obtain ⟨ps, hps⟩ :
                ∃ ps, pyIter ((lookupKey cfs "parts").getD (.arr [])) = .ok ps := by
              rcases hpm : (lookupKey cfs "parts").getD (.arr []) with _ | b | q | s | ys | ofs
              · rw [hpm] at hiter; simp [iterableB] at hiter
              · rw [hpm] at hiter; simp [iterableB] at hiter
              · rw [hpm] at hiter; simp [iterableB] at hiter
              · exact ⟨_, rfl⟩
              · exact ⟨ys, rfl⟩
              · exact ⟨_, rfl⟩
            by_cases hsb : pyStrip (String.intercalate " " ((ps.filter truthy).map pyStr)) = ""
            · exact ⟨ms, by simp [extractFromMappingNodes, pyGetD, hm, htr, hcm, htc, htp,
                hps, hsb, hrest, Except.bind, bind, pure, Except.pure]⟩
            · refine ⟨⟨(lookupKey afs "role").getD (.str "unknown"), pyTruncate 5000
                  (String.intercalate " " ((ps.filter truthy).map pyStr))⟩ :: ms, ?_⟩
              simp [extractFromMappingNodes, pyGetD, hm, htr, hcm, htc, htp, hps, hsb,
                ha, hrest, Except.bind, bind, pure, Except.pure]
          · have htpf : truthy ((lookupKey cfs "parts").getD (.arr [])) = false :=
              eq_false_of_ne_true htp
            exact ⟨ms, by simp [extractFromMappingNodes, pyGetD, hm, htr, hcm, htc, htpf,
              hrest, Except.bind, bind, pure, Except.pure]⟩

theorem extractFromMappingNodes_ok {nodes : List (String × JVal)}
    (h : ∀ nkv ∈ nodes, nodeOk nkv.2 = true) :
    ∃ ms, extractFromMappingNodes nodes = .ok ms := by
  induction nodes with
  | nil => exact ⟨[], rfl⟩
  | cons nkv rest ih =>
    rcases ih (fun x hx => h x (List.mem_cons_of_mem _ hx)) with ⟨ms, hms⟩
    rcases extractFromMappingNodes_cons_ok nkv.1
        (h nkv (List.mem_cons_self _ _)) hms with ⟨r, hr⟩
    exact ⟨r, by rw [← hr]⟩

theorem extractFromMessagesList_ok {xs : List JVal}
    (h : ∀ x ∈ xs, isObjB x = true) : ∃ ms, extractFromMessagesList xs = .ok ms := by
  induction xs with
  | nil => exact ⟨[], rfl⟩
  | cons msg rest ih =>
    rcases ih (fun x hx => h x (List.mem_cons_of_mem _ hx)) with ⟨ms, hms⟩
    obtain ⟨mfs, rfl⟩ : ∃ mfs, msg = .obj mfs := by
      have := h msg (List.mem_cons_self _ _)
      cases msg with
      | obj mfs => exact ⟨mfs, rfl⟩
      | null => simp [isObjB] at this
      | bool b => simp [isObjB] at this
      | num q => simp [isObjB] at this
      | str s => simp [isObjB] at this
      | arr ys => simp [isObjB] at this
    by_cases h1 : truthy ((lookupKey mfs "content").getD .null) = true
    · refine ⟨⟨(lookupKey mfs "role").getD ((lookupKey mfs "author").getD (.str "unknown")),
          pyTruncate 5000 (pyStr ((lookupKey mfs "content").getD .null))⟩ :: ms, ?_⟩
      simp [extractFromMessagesList, pyGetD, h1, hms, Except.bind, bind, pure, Except.pure]
    · have h1f : truthy ((lookupKey mfs "content").getD .null) = false :=
        eq_false_of_ne_true h1
      by_cases h2 : truthy ((lookupKey mfs "text").getD .null) = true
      · refine ⟨⟨(lookupKey mfs "role").getD ((lookupKey mfs "author").getD (.str "unknown")),
            pyTruncate 5000 (pyStr ((lookupKey mfs "text").getD .null))⟩ :: ms, ?_⟩
        simp [extractFromMessagesList, pyGetD, h1f, h2, hms, Except.bind, bind, pure,
          Except.pure]
      · have h2f : truthy ((lookupKey mfs "text").getD .null) = false :=
          eq_false_of_ne_true h2
        have h3 : truthy (JVal.str "") = false := rfl
        exact ⟨ms, by simp [extractFromMessagesList, pyGetD, h1f, h2f, h3, hms,
          Except.bind, bind, pure, Except.pure]⟩

theorem allKey_lookup {fs : List (String × JVal)} {k : String} {v : JVal} {P : JVal → Bool}
    (hall : fs.all (fun kv => kv.1 != k || P kv.2) = true)
    (hl : lookupKey fs k = some v) : P v = true := by
  have h := List.all_eq_true.mp hall _ (mem_of_lookupKey hl)
  simpa using h

/-- On a well-shaped record minimization succeeds. -/
theorem minimize_conv_obj_ok {fs : List (String × JVal)}
    (hmap : fs.all (fun kv => kv.1 != "mapping" || mappingValOk kv.2) = true)
    (hmsgs : fs.all (fun kv => kv.1 != "messages" || messagesValOk kv.2) = true)
    (hitems : fs.all (fun kv => kv.1 != "items" || iterableB kv.2) = true) :
    (minimize_conv (.obj fs)).isOk = true := by
  by_cases hk1 : hasKey fs "mapping" = true
  · rcases lookupKey_of_hasKey hk1 with ⟨m, hm⟩
    have hmOk : mappingValOk m = true := allKey_lookup hmap hm
    cases m with
    | obj nodes =>
      have h0 : nodes.all (fun nkv => nodeOk nkv.2) = true := hmOk
      have hnodes : ∀ nkv ∈ nodes, nodeOk nkv.2 = true := by
        intro nkv hnkv
        exact List.all_eq_true.mp h0 _ hnkv
      rcases extractFromMappingNodes_ok hnodes with ⟨ms, hms⟩
      simp [minimize_conv, extractMessages, pyContains, hk1, pySubscript, hm, hms, pyGetD, Except.bind,
        bind, pure, Except.pure, Except.isOk, Except.toBool]
    | null =>
      simp [minimize_conv, extractMessages, pyContains, hk1, pySubscript, hm, pyGetD, Except.bind,
        bind, pure, Except.pure, Except.isOk, Except.toBool]
    | bool b =>
      simp [minimize_conv, extractMessages, pyContains, hk1, pySubscript, hm, pyGetD, Except.bind,
        bind, pure, Except.pure, Except.isOk, Except.toBool]
    | num q =>
      simp [minimize_conv, extractMessages, pyContains, hk1, pySubscript, hm, pyGetD, Except.bind,
        bind, pure, Except.pure, Except.isOk, Except.toBool]
    | str s =>
      simp [minimize_conv, extractMessages, pyContains, hk1, pySubscript, hm, pyGetD, Except.bind,
        bind, pure, Except.pure, Except.isOk, Except.toBool]
    | arr xs =>
      simp [minimize_conv, extractMessages, pyContains, hk1, pySubscript, hm, pyGetD, Except.bind,
        bind, pure, Except.pure, Except.isOk, Except.toBool]
  · have hk1f : hasKey fs "mapping" = false := eq_false_of_ne_true hk1
    by_cases hk2 : hasKey fs "messages" = true
    · rcases lookupKey_of_hasKey hk2 with ⟨m, hm⟩
      have hmOk : messagesValOk m = true := allKey_lookup hmsgs hm
      cases m with
      | arr xs =>
        have h0 : xs.all isObjB = true := hmOk
        have hxs : ∀ x ∈ xs, isObjB x = true := by
          intro x hx
          exact List.all_eq_true.mp h0 _ hx
        rcases extractFromMessagesList_ok hxs with ⟨ms, hms⟩
        simp [minimize_conv, extractMessages, pyContains, hk1f, hk2, pySubscript, hm, hms, pyGetD,
          Except.bind, bind, pure, Except.pure, Except.isOk, Except.toBool]
      | null =>
        simp [minimize_conv, extractMessages, pyContains, hk1f, hk2, pySubscript, hm, pyGetD, Except.bind,
          bind, pure, Except.pure, Except.isOk, Except.toBool]
      | bool b =>
        simp [minimize_conv, extractMessages, pyContains, hk1f, hk2, pySubscript, hm, pyGetD, Except.bind,
          bind, pure, Except.pure, Except.isOk, Except.toBool]
      | num q =>
        simp [minimize_conv, extractMessages, pyContains, hk1f, hk2, pySubscript, hm, pyGetD, Except.bind,
          bind, pure, Except.pure, Except.isOk, Except.toBool]
      | str s =>
        simp [minimize_conv, extractMessages, pyContains, hk1f, hk2, pySubscript, hm, pyGetD, Except.bind,
          bind, pure, Except.pure, Except.isOk, Except.toBool]
      | obj ofs =>
        simp [minimize_conv, extractMessages, pyContains, hk1f, hk2, pySubscript, hm, pyGetD, Except.bind,
          bind, pure, Except.pure, Except.isOk, Except.toBool]
    · have hk2f : hasKey fs "messages" = false := eq_false_of_ne_true hk2
      by_cases hk3 : hasKey fs "items" = true
      · rcases lookupKey_of_hasKey hk3 with ⟨it, hit⟩
        have hitOk : iterableB it = true := allKey_lookup hitems hit
        obtain ⟨xs, hxs⟩ : ∃ xs, pyIter it = .ok xs := by
          cases it with
          | arr ys => exact ⟨ys, rfl⟩
          | obj ofs => exact ⟨_, rfl⟩
          | str s => exact ⟨_, rfl⟩
          | null => simp [iterableB] at hitOk
          | bool b => simp [iterableB] at hitOk
          | num q => simp [iterableB] at hitOk
        simp [minimize_conv, extractMessages, pyContains, hk1f, hk2f, hk3, pySubscript, hit, hxs, pyGetD,
          Except.bind, bind, pure, Except.pure, Except.isOk, Except.toBool]
      · have hk3f : hasKey fs "items" = false := eq_false_of_ne_true hk3
        simp [minimize_conv, extractMessages, pyContains, hk1f, hk2f, hk3f, pyGetD, Except.bind, bind,
          pure, Except.pure, Except.isOk, Except.toBool]

theorem Buckets.get_add (B : Buckets) (b b2 : Bucket) (c : JVal) :
    (B.add b c).get b2 = B.get b2 ++ (if b2 = b then [c] else []) := by
  cases b <;> cases b2 <;> simp [Buckets.add, Buckets.get]

/-- Each bucket after the sorting loop is the input filtered by routing,
appended to the bucket's previous contents. -/
theorem assignAux_get {now : ℚ} :
    ∀ {l : List JVal} {B B2 : Buckets}, assignAux now B l = .ok B2 →
      ∀ b, B2.get b = B.get b ++ l.filter (routesTo now b) := by
  intro l
  induction l with
  | nil =>
    intro B B2 h b
    simp only [assignAux] at h
    cases h
    simp
  | cons c rest ih =>
    intro B B2 h b
    cases hr : routeRecord now c with
    | error e =>
      simp [assignAux, hr, Except.bind, bind] at h
    | ok b0 =>
      simp only [assignAux, hr, Except.bind, bind] at h
      have hb2 := ih h b
      have hfil : routesTo now b c = (b0 == b) := by simp [routesTo, hr]
      by_cases hb : b0 = b
      · subst hb
        simp [List.filter, hfil, hb2, Buckets.get_add, List.append_assoc]
      · have hbne : (b0 == b) = false := by
          simp only [beq_eq_false_iff_ne, ne_eq]
          exact hb
        have hbne2 : ¬ b = b0 := fun h2 => hb h2.symm
        simp [List.filter, hfil, hbne, hb2, Buckets.get_add, hbne2]

/-- If the whole sorting loop succeeded, every record routed
successfully. -/
theorem assignAux_allOk {now : ℚ} :
    ∀ {l : List JVal} {B B2 : Buckets}, assignAux now B l = .ok B2 →
      ∀ c ∈ l, ∃ b, routeRecord now c = .ok b := by
  intro l
  induction l with
  | nil => intro B B2 h c hc; simp at hc
  | cons c0 rest ih =>
    intro B B2 h c hc
    cases hr : routeRecord now c0 with
    | error e => simp [assignAux, hr, Except.bind, bind] at h
    | ok b0 =>
      simp only [assignAux, hr, Except.bind, bind] at h
      rcases List.mem_cons.mp hc with rfl | hc2
      · exact ⟨b0, hr⟩
      · exact ih h c hc2

/-- Minimization of a bucket is a one-to-one, order-preserving map. -/
theorem minimizeList_forall2 :
    ∀ {l : List JVal} {out : List MinConv}, minimizeList l = .ok out →
      List.Forall₂ (fun c m => minimize_conv c = .ok m) l out := by
  intro l
  induction l with
  | nil =>
    intro out h
    simp only [minimizeList] at h
    cases h
    exact List.Forall₂.nil
  | cons c rest ih =>
    intro out h
    cases hm : minimize_conv c with
    | error e => simp [minimizeList, hm, Except.bind, bind] at h
    | ok m =>
      simp only [minimizeList, hm, Except.bind, bind] at h
      cases hrest : minimizeList rest with
      | error e => simp [hrest, Except.bind, bind] at h
      | ok ms =>
        simp only [hrest, Except.bind, bind, pure, Except.pure] at h
        cases h
        exact List.Forall₂.cons hm (ih hrest)

/-- The timestamp/title tail of `minimize_conv` on a dict record. -/
theorem minimize_conv_tail {fs : List (String × JVal)} {mc : MinConv}
    (hmc : minimize_conv (.obj fs) = .ok mc) :
    (∃ ms0, extractMessages (.obj fs) = .ok ms0 ∧ mc.messages = ms0) ∧
    mc.timestamp =
      (if truthy ((lookupKey fs "create_time").getD .null) then
        (lookupKey fs "create_time").getD .null
      else if truthy ((lookupKey fs "created_at").getD .null) then
        (lookupKey fs "created_at").getD .null
      else (lookupKey fs "timestamp").getD .null) ∧
    mc.title = pyTruncate 100 (pyStr ((lookupKey fs "title").getD (.str ""))) := by
  cases hE : extractMessages (.obj fs) with
  | error e => simp [minimize_conv, hE, Except.bind, bind] at hmc
  | ok ms0 =>
    simp only [minimize_conv, hE, pyGetD, Except.bind, bind, pure, Except.pure] at hmc
    cases hmc
    exact ⟨⟨ms0, rfl, rfl⟩, rfl, rfl⟩

/-! ### Claims -/

/-- C2: for every record whose timestamp resolves to a datetime `d`, the
bucket follows the ordered chain with inclusive lower/recent edges:
`d ≥ now − 90d` gives `last-3-months`; `now − 180d ≤ d < now − 90d` gives
`3-6-months`; `now − 365d ≤ d < now − 180d` gives `6-12-months`; and
`d < now − 365d` gives `older`. -/
theorem claim2_bucket_boundaries (now : ℚ) (conv t : JVal) (d : ℚ)
    (hres : resolveRawTimestamp conv = .ok t) (htr : truthy t = true)
    (hp : parseTimestamp t = .ok (some d)) :
    (now - 90 * 86400 ≤ d → routeRecord now conv = .ok .l3) ∧
    (d < now - 90 * 86400 → now - 180 * 86400 ≤ d → routeRecord now conv = .ok .m36) ∧
    (d < now - 180 * 86400 → now - 365 * 86400 ≤ d → routeRecord now conv = .ok .m612) ∧
    (d < now - 365 * 86400 → routeRecord now conv = .ok .older) := by
  have hroute : routeRecord now conv = .ok (bucketFromDate now d) := by
    simp [routeRecord, hres, htr, hp, Except.bind, bind, pure, Except.pure]
  rw [hroute]
  refine ⟨?_, ?_, ?_, ?_⟩
  · intro h1
    simp [bucketFromDate, ge_iff_le, h1]
  · intro h1 h2
    simp [bucketFromDate, ge_iff_le, h2, not_le.mpr h1]
  · intro h1 h2
    have h0 : ¬ now - 90 * 86400 ≤ d := by
      intro hcon
      exact absurd (lt_of_lt_of_le h1 (by linarith)) (lt_irrefl d)
    simp [bucketFromDate, ge_iff_le, h2, not_le.mpr h1, h0]
  · intro h1
    have h0 : ¬ now - 90 * 86400 ≤ d := by intro hcon; linarith
    have h0b : ¬ now - 180 * 86400 ≤ d := by intro hcon; linarith
    simp [bucketFromDate, ge_iff_le, h0, h0b, not_le.mpr h1]

/-- C2 witness: with `now = 0`, a record stamped exactly `now − 90d`
lands in `last-3-months`, and one second older in `3-6-months`. -/
theorem claim2_witness :
    routeRecord 0 (.obj [("create_time", .num (-7776000))]) = .ok .l3 ∧
    routeRecord 0 (.obj [("create_time", .num (-7776001))]) = .ok .m36 := by
  have h1 := claim2_bucket_boundaries 0 (.obj [("create_time", .num (-7776000))])
    (.num (-7776000)) (-7776000) rfl rfl
    (by norm_num [parseTimestamp, pyFromtimestamp, minEpoch, maxEpoch, Except.bind, bind,
      pure, Except.pure])
  have h2 := claim2_bucket_boundaries 0 (.obj [("create_time", .num (-7776001))])
    (.num (-7776001)) (-7776001) rfl rfl
    (by norm_num [parseTimestamp, pyFromtimestamp, minEpoch, maxEpoch, Except.bind, bind,
      pure, Except.pure])
  exact ⟨h1.1 (by norm_num), h2.2.1 (by norm_num) (by norm_num)⟩

/-- C3 counterexample: a record with no recognized timestamp field whose
`metadata` is a number makes the run raise `TypeError` instead of landing
in `older`. -/
theorem claim3_counterexample :
    routeRecord 0 (.obj [("metadata", .num 5)]) = .error .typeError ∧
    routeRecord 0 (.obj [("metadata", .num 5)]) ≠ .ok .older := by
  refine ⟨rfl, fun h => ?_⟩
  rw [(rfl : routeRecord 0 (.obj [("metadata", .num 5)]) = .error .typeError)] at h
  exact Except.noConfusion h

/-- C3 amended: when timestamp resolution completes without raising and
yields no truthy value (absent fields, or fields holding only falsy
values such as `0`), the record goes to `older`. -/
theorem claim3_falsy_unresolved_older (now : ℚ) (conv t : JVal)
    (hres : resolveRawTimestamp conv = .ok t) (htr : truthy t = false) :
    routeRecord now conv = .ok .older := by
  simp [routeRecord, hres, htr, Except.bind, bind, pure, Except.pure]

/-- C3 witness: a record whose top-level `create_time` and nested
`metadata.created_at` are both `0` resolves to the falsy `0` and lands
in `older`. -/
theorem claim3_witness :
    routeRecord 0 (.obj [("create_time", .num 0),
      ("metadata", .obj [("created_at", .num 0)])]) = .ok .older :=
  claim3_falsy_unresolved_older 0 _ (.num 0) rfl rfl

/-- C4 counterexample: a record whose `mapping` field is present but not a
mapping and whose `messages` field is a perfectly extractable sequence
still minimizes to an empty message list — the `messages` strategy is not
tried. -/
theorem claim4_counterexample :
    minimize_conv (.obj [("mapping", .num 5),
      ("messages", .arr [.obj [("role", .str "user"), ("content", .str "hi")]])]) =
      .ok ⟨[], .null, ""⟩ ∧
    extractFromMessagesList [.obj [("role", .str "user"), ("content", .str "hi")]] =
      .ok [⟨.str "user", "hi"⟩] ∧
    ([] : List Msg) ≠ [⟨.str "user", "hi"⟩] :=
  ⟨rfl, rfl, fun h => List.noConfusion h⟩

/-- C4 amended: strategy selection keys on field presence alone. A present
`mapping` that is not itself a mapping yields an empty message list (the
`messages` strategy is not tried); the `messages` strategy applies only
when `mapping` is absent, and then a list-valued `messages` field is
extracted. -/
theorem claim4_presence_keyed_strategies :
    (∀ (fs : List (String × JVal)) (v : JVal) (mc : MinConv),
        lookupKey fs "mapping" = some v → isObjB v = false →
        minimize_conv (.obj fs) = .ok mc → mc.messages = []) ∧
    (∀ (fs : List (String × JVal)) (xs : List JVal) (ms : List Msg) (mc : MinConv),
        hasKey fs "mapping" = false → lookupKey fs "messages" = some (.arr xs) →
        extractFromMessagesList xs = .ok ms →
        minimize_conv (.obj fs) = .ok mc → mc.messages = ms) := by
  constructor
  · intro fs v mc hl hobj hmc
    have hk : hasKey fs "mapping" = true := hasKey_of_lookupKey hl
    rcases minimize_conv_tail hmc with ⟨⟨ms0, hE, hmsgs⟩, _, _⟩
    rw [hmsgs]
    cases v with
    | obj o => simp [isObjB] at hobj
    | null =>
      simp [extractMessages, pyContains, hk, pySubscript, hl, Except.bind, bind, pure,
        Except.pure] at hE
      exact hE
    | bool b =>
      simp [extractMessages, pyContains, hk, pySubscript, hl, Except.bind, bind, pure,
        Except.pure] at hE
      exact hE
    | num q =>
      simp [extractMessages, pyContains, hk, pySubscript, hl, Except.bind, bind, pure,
        Except.pure] at hE
      exact hE
    | str s =>
      simp [extractMessages, pyContains, hk, pySubscript, hl, Except.bind, bind, pure,
        Except.pure] at hE
      exact hE
    | arr ys =>
      simp [extractMessages, pyContains, hk, pySubscript, hl, Except.bind, bind, pure,
        Except.pure] at hE
      exact hE
  · intro fs xs ms mc hk1 hl hex hmc
    have hk2 : hasKey fs "messages" = true := hasKey_of_lookupKey hl
    rcases minimize_conv_tail hmc with ⟨⟨ms0, hE, hmsgs⟩, _, _⟩
    rw [hmsgs]
    simp [extractMessages, pyContains, hk1, hk2, pySubscript, hl, hex, Except.bind, bind,
      pure, Except.pure] at hE
    exact hE.symm

/-- C4 witness: instantiating the amended claim on the counterexample
record and on a plain `messages` record. -/
theorem claim4_witness :
    (⟨[], JVal.null, ""⟩ : MinConv).messages = [] ∧
    (⟨[⟨JVal.str "user", "hi"⟩], JVal.null, ""⟩ : MinConv).messages =
      [⟨JVal.str "user", "hi"⟩] := by
  constructor
  · exact claim4_presence_keyed_strategies.1
      [("mapping", .num 5),
        ("messages", .arr [.obj [("role", .str "user"), ("content", .str "hi")]])]
      (.num 5) ⟨[], .null, ""⟩ rfl rfl rfl
  · exact claim4_presence_keyed_strategies.2
      [("messages", .arr [.obj [("role", .str "user"), ("content", .str "hi")]])]
      [.obj [("role", .str "user"), ("content", .str "hi")]]
      [⟨.str "user", "hi"⟩] ⟨[⟨.str "user", "hi"⟩], .null, ""⟩ rfl rfl rfl rfl

/-- C6 counterexample: a record whose only timestamp field is the falsy
`0` gets minimized timestamp `0`, not null. -/
theorem claim6_counterexample :
    minimize_conv (.obj [("timestamp", .num 0)]) = .ok ⟨[], .num 0, ""⟩ ∧
    truthy (.num 0) = false ∧ JVal.num 0 ≠ JVal.null :=
  ⟨rfl, rfl, fun h => JVal.noConfusion h⟩

/-- C6 amended: the minimized timestamp is the first truthy of the raw
`create_time`, `created_at`, `timestamp` values; when none is truthy it is
the raw `timestamp` value itself — null when that field is absent or
null, but a present falsy value (e.g. `0`) is emitted as-is. -/
theorem claim6_output_timestamp (fs : List (String × JVal)) (mc : MinConv)
    (hmc : minimize_conv (.obj fs) = .ok mc) :
    (truthy ((lookupKey fs "create_time").getD .null) = true →
      mc.timestamp = (lookupKey fs "create_time").getD .null) ∧
    (truthy ((lookupKey fs "create_time").getD .null) = false →
      truthy ((lookupKey fs "created_at").getD .null) = true →
      mc.timestamp = (lookupKey fs "created_at").getD .null) ∧
    (truthy ((lookupKey fs "create_time").getD .null) = false →
      truthy ((lookupKey fs "created_at").getD .null) = false →
      mc.timestamp = (lookupKey fs "timestamp").getD .null) := by
  rcases minimize_conv_tail hmc with ⟨_, hts, _⟩
  refine ⟨fun h1 => ?_, fun h1 h2 => ?_, fun h1 h2 => ?_⟩
  · rw [hts, if_pos h1]
  · rw [hts, if_neg (by simp [h1]), if_pos h2]
  · rw [hts, if_neg (by simp [h1]), if_neg (by simp [h2])]

/-- C6 witness: instantiating the amended claim on the `{"timestamp": 0}`
record. -/
theorem claim6_witness :
    (⟨[], JVal.num 0, ""⟩ : MinConv).timestamp =
      (lookupKey [("timestamp", JVal.num 0)] "timestamp").getD .null :=
  (claim6_output_timestamp [("timestamp", .num 0)] ⟨[], .num 0, ""⟩ rfl).2.2 rfl rfl

/-- C7: a truthy numeric timestamp is read as a Unix epoch number — above
`1e12` it is divided by 1000 (milliseconds), otherwise taken as seconds —
and the resulting UTC instant drives the bucket chain; outside
`datetime`'s representable range the conversion raises instead. -/
theorem claim7_numeric_epoch (q now : ℚ) (hq : q ≠ 0) :
    (minEpoch ≤ (if q > 10 ^ 12 then q / 1000 else q) →
      (if q > 10 ^ 12 then q / 1000 else q) < maxEpoch →
      parseTimestamp (.num q) = .ok (some (if q > 10 ^ 12 then q / 1000 else q)) ∧
      routeRecord now (.obj [("create_time", .num q)]) =
        .ok (bucketFromDate now (if q > 10 ^ 12 then q / 1000 else q))) ∧
    (¬ (minEpoch ≤ (if q > 10 ^ 12 then q / 1000 else q) ∧
        (if q > 10 ^ 12 then q / 1000 else q) < maxEpoch) →
      parseTimestamp (.num q) = .error .valueError) := by
  constructor
  · intro h1 h2
    have hp : parseTimestamp (.num q) =
        .ok (some (if q > 10 ^ 12 then q / 1000 else q)) := by
      simp [parseTimestamp, pyFromtimestamp, h1, h2, Except.bind, bind, pure, Except.pure]
    refine ⟨hp, ?_⟩
    have hres : resolveRawTimestamp (.obj [("create_time", .num q)]) = .ok (.num q) := by
      simp [resolveRawTimestamp, findField, tsFields, pyContains, hasKey, pySubscript,
        lookupKey, List.find?, List.any, truthy, bne_iff_ne, hq, Except.bind, bind, pure,
        Except.pure]
    have htr : truthy (JVal.num q) = true := by simp [truthy, bne_iff_ne, hq]
    simp [routeRecord, hres, htr, hp, Except.bind, bind, pure, Except.pure]
  · intro h
    simp [parseTimestamp, pyFromtimestamp, h, Except.bind, bind, pure, Except.pure]

/-- C7 witness: `2e12` is read as milliseconds (2e9 seconds) and, with
`now = 0`, lands in `last-3-months`. -/
theorem claim7_witness :
    parseTimestamp (.num (2 * 10 ^ 12)) = .ok (some (2 * 10 ^ 9)) ∧
    routeRecord 0 (.obj [("create_time", .num (2 * 10 ^ 12))]) = .ok .l3 := by
  have h := (claim7_numeric_epoch (2 * 10 ^ 12) 0 (by norm_num)).1
    (by norm_num [minEpoch]) (by norm_num [maxEpoch])
  have hval : (if (2 * 10 ^ 12 : ℚ) > 10 ^ 12 then (2 * 10 ^ 12 : ℚ) / 1000
      else (2 * 10 ^ 12 : ℚ)) = 2 * 10 ^ 9 := by norm_num
  rw [hval] at h
  refine ⟨h.1, ?_⟩
  rw [h.2]
  have hb : bucketFromDate 0 (2 * 10 ^ 9) = .l3 := by norm_num [bucketFromDate]
  rw [hb]

/-- C8: a top-level mapping lacking both `conversations` and `items` keys
yields its first sequence-typed value, or the empty sequence when there is
none; a document that is itself a sequence is used directly. -/
theorem claim8_loader_shape (fs : List (String × JVal)) (xs : List JVal) :
    (hasKey fs "conversations" = false → hasKey fs "items" = false →
      selectConversations (.obj fs) =
        some (((fs.map Prod.snd).find? isArr).getD (.arr []))) ∧
    selectConversations (.arr xs) = some (.arr xs) := by
  constructor
  · intro h1 h2
    rw [selectConversations, if_neg (by simp [h1]), if_neg (by simp [h2]),
      ← head?_filter_eq_find?]
    cases hh : ((fs.map Prod.snd).filter isArr).head? with
    | none => simp [hh]
    | some v => simp [hh]
  · rfl

/-- C8 witness: the fallback picks the first list value, or `[]` when no
value is a list. -/
theorem claim8_witness :
    selectConversations (.obj [("a", .num 1), ("b", .arr [.num 2]), ("c", .arr [])]) =
      some (.arr [.num 2]) ∧
    selectConversations (.obj [("a", .num 1)]) = some (.arr []) := by
  have h1 := (claim8_loader_shape
    [("a", .num 1), ("b", .arr [.num 2]), ("c", .arr [])] []).1 rfl rfl
  have h2 := (claim8_loader_shape [("a", .num 1)] []).1 rfl rfl
  exact ⟨h1.trans rfl, h2.trans rfl⟩

theorem assignBuckets_get {now : ℚ} {convs : List JVal} {B : Buckets}
    (h : assignBuckets now convs = .ok B) (b : Bucket) :
    B.get b = convs.filter (routesTo now b) := by
  have h0 := assignAux_get (B := ⟨[], [], [], []⟩) h b
  have hempty : (⟨[], [], [], []⟩ : Buckets).get b = [] := by cases b <;> rfl
  rw [h0, hempty, List.nil_append]

theorem routesTo_iff {now : ℚ} {c : JVal} {b : Bucket} :
    routesTo now b c = true ↔ routeRecord now c = .ok b := by
  cases hr : routeRecord now c with
  | ok b0 => simp [routesTo, hr]
  | error e => simp [routesTo, hr]

/-- C1: when every record is processed without an abort, the four buckets
partition the input: their concatenation is a permutation of the input
sequence and every record belongs to exactly one bucket. -/
theorem claim1_partition (now : ℚ) (convs : List JVal) (B : Buckets)
    (h : assignBuckets now convs = .ok B) :
    (B.get .l3 ++ B.get .m36 ++ B.get .m612 ++ B.get .older).Perm convs ∧
    ∀ c ∈ convs, ∃! b : Bucket, c ∈ B.get b := by
  have hget : ∀ b, B.get b = convs.filter (routesTo now b) := assignBuckets_get h
  have hok : ∀ c ∈ convs, ∃ b, routeRecord now c = .ok b := assignAux_allOk h
  constructor
  · have eA : (convs.filter (fun c => !routesTo now .l3 c)).filter (routesTo now .m36)
        = convs.filter (routesTo now .m36) := by
      rw [List.filter_filter]
      apply List.filter_congr
      intro c hc
      rcases hok c hc with ⟨b, hb⟩
      cases b <;> simp [routesTo, hb]
    have eC : ((convs.filter (fun c => !routesTo now .l3 c)).filter
          (fun c => !routesTo now .m36 c)).filter (routesTo now .m612)
        = convs.filter (routesTo now .m612) := by
      rw [List.filter_filter, List.filter_filter]
      apply List.filter_congr
      intro c hc
      rcases hok c hc with ⟨b, hb⟩
      cases b <;> first
        | (simp [routesTo, hb]; done)
        | (simp [routesTo, hb]; decide)
    have eD : ((convs.filter (fun c => !routesTo now .l3 c)).filter
          (fun c => !routesTo now .m36 c)).filter (fun c => !routesTo now .m612 c)
        = convs.filter (routesTo now .older) := by
      rw [List.filter_filter, List.filter_filter]
      apply List.filter_congr
      intro c hc
      rcases hok c hc with ⟨b, hb⟩
      cases b <;> simp [routesTo, hb]
    have P3 := List.filter_append_perm (routesTo now .m612)
      ((convs.filter (fun c => !routesTo now .l3 c)).filter (fun c => !routesTo now .m36 c))
    rw [eC, eD] at P3
    have P2 := List.filter_append_perm (routesTo now .m36)
      (convs.filter (fun c => !routesTo now .l3 c))
    rw [eA] at P2
    have P1 := List.filter_append_perm (routesTo now .l3) convs
    have step1 : (convs.filter (routesTo now .m36) ++
        (convs.filter (routesTo now .m612) ++ convs.filter (routesTo now .older))).Perm
        (convs.filter (fun c => !routesTo now .l3 c)) :=
      ((List.Perm.append_left _ P3).trans P2)
    have step2 : (convs.filter (routesTo now .l3) ++
        (convs.filter (routesTo now .m36) ++
          (convs.filter (routesTo now .m612) ++ convs.filter (routesTo now .older)))).Perm
        convs :=
      ((List.Perm.append_left _ step1).trans P1)
    simpa [hget, List.append_assoc] using step2
  · intro c hc
    rcases hok c hc with ⟨b, hb⟩
    refine ⟨b, ?_, ?_⟩
    · show c ∈ B.get b
      rw [hget b, List.mem_filter]
      exact ⟨hc, routesTo_iff.mpr hb⟩
    · intro b2 hb2
      have hb2m : c ∈ B.get b2 := hb2
      rw [hget b2, List.mem_filter] at hb2m
      have h2 := routesTo_iff.mp hb2m.2
      rw [hb] at h2
      exact (Except.ok.inj h2).symm

/-- C1 witness: a two-record run splitting into `last-3-months` and
`older`. -/
theorem claim1_witness :
    ((⟨[.obj [("create_time", .num 1)]], [], [], [.obj []]⟩ : Buckets).get .l3 ++
      (⟨[.obj [("create_time", .num 1)]], [], [], [.obj []]⟩ : Buckets).get .m36 ++
      (⟨[.obj [("create_time", .num 1)]], [], [], [.obj []]⟩ : Buckets).get .m612 ++
      (⟨[.obj [("create_time", .num 1)]], [], [], [.obj []]⟩ : Buckets).get .older).Perm
      [.obj [("create_time", .num 1)], .obj []] :=
  (claim1_partition 0 [.obj [("create_time", .num 1)], .obj []]
    ⟨[.obj [("create_time", .num 1)]], [], [], [.obj []]⟩
    (by norm_num [assignBuckets, assignAux, routeRecord, resolveRawTimestamp, findField,
      tsFields, pyContains, hasKey, pySubscript, lookupKey, truthy, parseTimestamp,
      pyFromtimestamp, minEpoch, maxEpoch, bucketFromDate, Buckets.add, Except.bind, bind,
      pure, Except.pure])).1

/-- C10: each bucket holds, in input order, exactly the records routing to
it (a sublist of the input), and minimization maps it one-to-one and in
order. -/
theorem claim10_bucket_order (now : ℚ) (convs : List JVal) (B : Buckets) (b : Bucket)
    (out : List MinConv) (h : assignBuckets now convs = .ok B)
    (hm : minimizeList (B.get b) = .ok out) :
    B.get b = convs.filter (routesTo now b) ∧ (B.get b).Sublist convs ∧
    List.Forall₂ (fun c m => minimize_conv c = .ok m) (B.get b) out := by
  have hg := assignBuckets_get h b
  exact ⟨hg, by rw [hg]; exact List.filter_sublist _, minimizeList_forall2 hm⟩

/-- C10 witness: the `older` bucket of a two-record run, minimized. -/
theorem claim10_witness :
    (⟨[.obj [("create_time", .num 1)]], [], [], [.obj []]⟩ : Buckets).get .older =
      ([.obj [("create_time", .num 1)], .obj []] : List JVal).filter (routesTo 0 .older) ∧
    ((⟨[.obj [("create_time", .num 1)]], [], [], [.obj []]⟩ : Buckets).get .older).Sublist
      [.obj [("create_time", .num 1)], .obj []] ∧
    List.Forall₂ (fun c m => minimize_conv c = .ok m)
      ((⟨[.obj [("create_time", .num 1)]], [], [], [.obj []]⟩ : Buckets).get .older)
      [⟨[], .null, ""⟩] :=
  claim10_bucket_order 0 [.obj [("create_time", .num 1)], .obj []]
    ⟨[.obj [("create_time", .num 1)]], [], [], [.obj []]⟩ .older [⟨[], .null, ""⟩]
    (by norm_num [assignBuckets, assignAux, routeRecord, resolveRawTimestamp, findField,
      tsFields, pyContains, hasKey, pySubscript, lookupKey, truthy, parseTimestamp,
      pyFromtimestamp, minEpoch, maxEpoch, bucketFromDate, Buckets.add, Except.bind, bind,
      pure, Except.pure]) rfl

/-- C5 counterexample: a record that is a bare number (legal JSON inside
any of the accepted top-level shapes) makes both bucketing and
minimization raise `TypeError` — per-record processing does not always
degrade silently. -/
theorem claim5_counterexample :
    routeRecord 0 (.num 5) = .error .typeError ∧
    minimize_conv (.num 5) = .error .typeError :=
  ⟨rfl, rfl⟩

/-- C5 amended: timestamp resolution, bucketing and minimization never
raise on well-shaped records — dicts whose timestamp-field values stay in
`datetime`'s range, whose `metadata` (when present) is a dict, and whose
`mapping`/`messages`/`items` values fit their loops; outside that space
(e.g. a non-dict record) processing can raise. -/
theorem claim5_wellShaped_no_raise (now : ℚ) (conv : JVal)
    (h : wellShaped conv = true) :
    (routeRecord now conv).isOk = true ∧ (minimize_conv conv).isOk = true := by
  obtain ⟨fs, rfl⟩ : ∃ fs, conv = .obj fs := by
    cases conv with
    | obj fs => exact ⟨fs, rfl⟩
    | null => simp [wellShaped] at h
    | bool b => simp [wellShaped] at h
    | num q => simp [wellShaped] at h
    | str s => simp [wellShaped] at h
    | arr xs => simp [wellShaped] at h
  simp only [wellShaped, Bool.and_eq_true] at h
  obtain ⟨⟨⟨⟨hts, hmeta⟩, hmap⟩, hmsgs⟩, hitems⟩ := h
  exact ⟨routeRecord_obj_ok now hts hmeta, minimize_conv_obj_ok hmap hmsgs hitems⟩

/-- C5 witness: a well-shaped record with a numeric timestamp and a
`messages` list processes without raising. -/
theorem claim5_witness :
    (routeRecord 0 (.obj [("create_time", .num 1),
      ("messages", .arr [.obj [("role", .str "user"),
        ("content", .str "hi")]])])).isOk = true ∧
    (minimize_conv (.obj [("create_time", .num 1),
      ("messages", .arr [.obj [("role", .str "user"),
        ("content", .str "hi")]])])).isOk = true :=
  claim5_wellShaped_no_raise 0 _ (by decide)

/-- C9: message content is truncated to exactly its first 5000 characters
in every extraction strategy, and the title to its first 100 characters
(empty when absent). -/
theorem claim9_truncation :
    (∀ (r c : JVal) (extra : List (String × JVal)) (rest : List JVal) (ms : List Msg),
        truthy c = true → extractFromMessagesList rest = .ok ms →
        extractFromMessagesList (.obj (("content", c) :: ("role", r) :: extra) :: rest) =
          .ok (⟨r, pyTruncate 5000 (pyStr c)⟩ :: ms)) ∧
    (∀ s : String, 5000 < s.data.length →
        (pyTruncate 5000 s).data = s.data.take 5000 ∧
        (pyTruncate 5000 s).data.length = 5000) ∧
    (∀ (c : JVal) (extra : List (String × JVal)) (rest : List JVal),
        extractFromItems (.obj (("content", c) :: extra) :: rest) =
          ⟨(lookupKey (("content", c) :: extra) "role").getD (.str "unknown"),
            pyTruncate 5000 (pyStr c)⟩ :: extractFromItems rest) ∧
    (∀ (nid : String) (r : JVal) (ps : List JVal) (rest : List (String × JVal))
        (ms : List Msg),
        truthy (.arr ps) = true →
        pyStrip (String.intercalate " " ((ps.filter truthy).map pyStr)) ≠ "" →
        extractFromMappingNodes rest = .ok ms →
        extractFromMappingNodes ((nid, .obj [("message", .obj [
            ("author", .obj [("role", r)]),
            ("content", .obj [("parts", .arr ps)])])]) :: rest) =
          .ok (⟨r, pyTruncate 5000
            (String.intercalate " " ((ps.filter truthy).map pyStr))⟩ :: ms)) ∧
    (∀ (fs : List (String × JVal)) (mc : MinConv), minimize_conv (.obj fs) = .ok mc →
        mc.title = pyTruncate 100 (pyStr ((lookupKey fs "title").getD (.str ""))) ∧
        (hasKey fs "title" = false → mc.title = "") ∧
        mc.title.data.length ≤ 100) := by
  refine ⟨?_, ?_, ?_, ?_, ?_⟩
  · intro r c extra rest ms h1 h2
    simp [extractFromMessagesList, pyGetD, lookupKey, List.find?, h1, h2, Except.bind,
      bind, pure, Except.pure]
  · intro s h
    refine ⟨rfl, ?_⟩
    show (s.data.take 5000).length = 5000
    rw [List.length_take]
    exact Nat.min_eq_left (Nat.le_of_lt h)
  · intro c extra rest
    simp [extractFromItems, hasKey, List.any, lookupKey, List.find?]
  · intro nid r ps rest ms htp hsb hrest
    have hne : ¬ ps = [] := by
      intro h0
      rw [h0] at htp
      simp [truthy] at htp
    simp [extractFromMappingNodes, pyGetD, lookupKey, List.find?, truthy, htp, hsb,
      pyIter, hrest, hne, Except.bind, bind, pure, Except.pure]
  · intro fs mc hmc
    rcases minimize_conv_tail hmc with ⟨_, _, hti⟩
    refine ⟨hti, fun habs => ?_, ?_⟩
    · have hnone : lookupKey fs "title" = none := by
        cases hl : lookupKey fs "title" with
        | none => rfl
        | some v => rw [hasKey_of_lookupKey hl] at habs; exact Bool.noConfusion habs
      rw [hti, hnone]
      rfl
    · rw [hti]
      show ((pyStr ((lookupKey fs "title").getD (.str ""))).data.take 100).length ≤ 100
      rw [List.length_take]
      exact Nat.min_le_left _ _

/-- C9 witness: a 5001-character message content is cut to exactly its
first 5000 characters; an absent title becomes the empty string. -/
theorem claim9_witness :
    extractFromMessagesList [.obj [("content", .str (String.mk (List.replicate 5001 'a'))),
      ("role", .str "user")]] =
      .ok [⟨.str "user", pyTruncate 5000 (pyStr (.str (String.mk
        (List.replicate 5001 'a'))))⟩] ∧
    (pyTruncate 5000 (String.mk (List.replicate 5001 'a'))).data.length = 5000 ∧
    (⟨[], JVal.null, ""⟩ : MinConv).title = "" := by
  refine ⟨?_, ?_, ?_⟩
  · refine claim9_truncation.1 (.str "user") (.str (String.mk (List.replicate 5001 'a')))
      [] [] [] ?_ rfl
    simp only [truthy, bne_iff_ne, ne_eq]
    intro h0
    have h1 := congrArg String.data h0
    have h2 : List.replicate 5001 'a' = ([] : List Char) := h1
    have h3 := congrArg List.length h2
    rw [List.length_replicate] at h3
    simp at h3
  · refine (claim9_truncation.2.1 (String.mk (List.replicate 5001 'a')) ?_).2
    show 5000 < (List.replicate 5001 'a').length
    rw [List.length_replicate]
    norm_num
  · exact (claim9_truncation.2.2.2.2 [] ⟨[], .null, ""⟩ rfl).2.1 rfl

end Hippo
